import Mathlib

/-!
Shallow embedding of the Shop-ai retrieval-augmented recommendation
pipeline (`GeminiRagPipeline` in the TypeScript source) together with the
multilingual translation front-end (`MultilingualGeminiService`).

Strings that take part in case-insensitive substring matching are modelled
as `List Char`; JavaScript numbers (prices, ratings, budgets) are modelled
as exact rationals `ℚ`.  External LLM calls are modelled as oracle
functions returning `Except Unit _`; a thrown JavaScript exception is the
`Except.error` case.
-/

deriving instance DecidableEq for Except

namespace Shop

/-- Case conversion used before every substring test in the source
(`toLowerCase`). -/
def lowerStr (s : List Char) : List Char := s.map Char.toLower

/-- Boolean test that `hay` starts with `needle`, character by character. -/
def chStartsWith : List Char → List Char → Bool
  | _, [] => true
  | [], _ :: _ => false
  | b :: bs, a :: as => a == b && chStartsWith bs as

/-- Boolean contiguous-substring test modelling JavaScript
`hay.includes(needle)`. -/
def containsSub : List Char → List Char → Bool
  | [], needle => needle.isEmpty
  | c :: t, needle => chStartsWith (c :: t) needle || containsSub t needle

/-- Product record of the catalog (interface `Product` in the source).
`name` is kept as `List Char` because it takes part in case-insensitive
substring matching against requested brands. -/
structure Product where
  id : String
  name : List Char
  price : ℚ
  platform : String
  rating : ℚ
  reviews : String
  description : Option String := none
  url : Option String := none
  thumbnail : Option String := none
  inStock : Option Bool := none
deriving DecidableEq

/-- Optional budget range of a query or an extracted intent. -/
structure Budget where
  min : ℚ
  max : ℚ
deriving DecidableEq

/-- Search query submitted to the pipeline (interface `SearchQuery`). -/
structure SearchQuery where
  text : String
  budget : Option Budget := none
  brands : Option (List (List Char)) := none
  categories : Option (List String) := none
  language : Option String := none
deriving DecidableEq

/-- Structured intent returned by the external entity-extraction call
(`extractQueryEntities`).  Only `productType` and `budget` are read by the
retriever; the remaining advisory fields of the JSON shape are not
consulted by any code under specification and are omitted. -/
structure Entities where
  productType : Option (List Char) := none
  budget : Option Budget := none
deriving DecidableEq

/-- Effective product type string: `entities.productType || ""`. -/
def ptOf (e : Entities) : List Char := e.productType.getD []

/-- Category-relevance test from `retrieveRelevantProducts`:
`category.toLowerCase().includes(productType.toLowerCase()) ||
 productType.toLowerCase().includes(category.toLowerCase())`. -/
def categoryMatches (pt cat : List Char) : Bool :=
  containsSub (lowerStr cat) (lowerStr pt) || containsSub (lowerStr pt) (lowerStr cat)

/-- JavaScript numeric `x || y`: a present value stands unless it is `0`
(the only falsy rational), in which case the fallback is used. -/
def jsNumOr (x : Option ℚ) (y : ℚ) : ℚ :=
  match x with
  | none => y
  | some v => if v = 0 then y else v

/-- Resolved maximum budget, modelling
`query.budget?.max || entities.budget?.max || 0`. -/
def resolvedMaxBudget (q : SearchQuery) (e : Entities) : ℚ :=
  jsNumOr (q.budget.map Budget.max) (jsNumOr (e.budget.map Budget.max) 0)

/-- Budget filter step of `retrieveRelevantProducts`: inside
`if (query.budget || entities.budget)`, products are kept only when
`p.price <= maxBudget`, and only when the resolved `maxBudget` is
positive. -/
def budgetFilter (q : SearchQuery) (e : Entities) (ps : List Product) :
    List Product :=
  if q.budget.isSome || e.budget.isSome then
    if resolvedMaxBudget q e > 0 then
      ps.filter (fun p => p.price ≤ resolvedMaxBudget q e)
    else ps
  else ps

/-- Brand filter step of `retrieveRelevantProducts`: when the query lists
brands, keep products whose lower-cased name contains some requested brand
as a substring. -/
def brandFilter (q : SearchQuery) (ps : List Product) : List Product :=
  match q.brands with
  | none => ps
  | some bs =>
    if bs.length > 0 then
      ps.filter (fun p => bs.any (fun b => containsSub (lowerStr p.name) (lowerStr b)))
    else ps

/-- Both per-category filters, in source order (budget, then brands). -/
def applyFilters (q : SearchQuery) (e : Entities) (ps : List Product) :
    List Product :=
  brandFilter q (budgetFilter q e ps)

/-- Catalog: the insertion-ordered `Map<string, Product[]>`
(`productDatabase`), as an association list. -/
abbrev Catalog := List (List Char × List Product)

/-- Pre-sort aggregation loop of `retrieveRelevantProducts`: filtered
products of every matching category, concatenated in catalog order. -/
def relevantAggregate (db : Catalog) (q : SearchQuery) (e : Entities) :
    List Product :=
  (db.filter (fun cp => categoryMatches (ptOf e) cp.1)).flatMap
    (fun cp => applyFilters q e cp.2)

/-- Insertion step of the stable descending sort by rating. -/
def insertByRating (p : Product) : List Product → List Product
  | [] => [p]
  | q :: t => if p.rating ≥ q.rating then p :: q :: t else q :: insertByRating p t

/-- Stable descending sort by rating, modelling
`relevantProducts.sort((a, b) => b.rating - a.rating)` (ECMAScript array
sort is stable). -/
def sortByRatingDesc : List Product → List Product
  | [] => []
  | p :: t => insertByRating p (sortByRatingDesc t)

/-- Retrieval (`retrieveRelevantProducts`).  The extraction oracle's
outcome is the first argument: a thrown extraction/parse error is
`Except.error` and lands in the surrounding `catch`, which returns the
empty list. -/
def retrieveRelevantProducts (er : Except Unit Entities) (db : Catalog)
    (q : SearchQuery) : List Product :=
  match er with
  | .error _ => []
  | .ok e => (sortByRatingDesc (relevantAggregate db q e)).take 10

/-- Left fold keeping `prev` exactly when its key is strictly greater,
modelling `arr.reduce((prev, cur) => k(prev) > k(cur) ? prev : cur)` on the
non-empty array `a :: l`. -/
def foldKeepMax {α : Type} (k : α → ℚ) (a : α) (l : List α) : α :=
  l.foldl (fun prev cur => if k prev > k cur then prev else cur) a

/-- Left fold switching to `cur` exactly when `prev`'s key is strictly
greater, modelling `arr.reduce((prev, cur) => k(prev) > k(cur) ? cur : prev)`
on the non-empty array `a :: l`. -/
def foldKeepMin {α : Type} (k : α → ℚ) (a : α) (l : List α) : α :=
  l.foldl (fun prev cur => if k prev > k cur then cur else prev) a

/-- Divide-by-zero guard `p.rating || 1` of the best-value reduce: a zero
rating (the only falsy rational) is replaced by `1`. -/
def jsEffRating (p : Product) : ℚ :=
  if p.rating = 0 then 1 else p.rating

/-- Value key of the best-value reduce: `p.price / (p.rating || 1)`. -/
def valueScore (p : Product) : ℚ := p.price / jsEffRating p

/-- Selector for `topRated`, from
`relevantProducts.reduce((prev, current) => prev.rating > current.rating ? prev : current)`. -/
def selectTopRated (a : Product) (l : List Product) : Product :=
  foldKeepMax Product.rating a l

/-- Selector for `bestValue`, from
`relevantProducts.reduce((prev, current) => prev.price / (prev.rating || 1) > current.price / (current.rating || 1) ? current : prev)`. -/
def selectBestValue (a : Product) (l : List Product) : Product :=
  foldKeepMin valueScore a l

/-- User-preference block assembled into the RAG context. -/
structure UserPreferences where
  budget : Option ℚ
  brands : Option (List (List Char))
  categories : Option (List String)
  language : Option String
deriving DecidableEq

/-- Context handed to the recommendation-generation call (`RAGContext`). -/
structure RAGContext where
  productData : Option (List Product)
  userPreferences : Option UserPreferences
deriving DecidableEq

/-- Context actually built by `generateRecommendations` (step 2). -/
def ragContextOf (q : SearchQuery) (relevant : List Product) : RAGContext :=
  { productData := some relevant
    userPreferences := some
      { budget := q.budget.map Budget.max
        brands := q.brands
        categories := q.categories
        language := q.language } }

/-- Final result record (`RAGRecommendation`).  The source always sets the
optional `alternatives` field, so it is a plain list here. -/
structure RAGRecommendation where
  products : List Product
  analysis : String
  reasoning : String
  alternatives : List Product
  bestValue : Product
  topRated : Product
deriving DecidableEq

/-- Error outcomes of `generateRecommendations`: the distinguished
no-match `Error` thrown at zero candidates, or a re-thrown failure of one
of the two external LLM calls. -/
inductive RagError where
  | noMatch (message : String)
  | externalCall (stage : String)
deriving DecidableEq

/-- Message of the no-match error thrown by `generateRecommendations`. -/
def noMatchMsg : String :=
  "No products found matching your criteria. Please try a different search."

/-- External call issued by the orchestrator, with its actual arguments
(recorded so that invocation claims are statable). -/
inductive CallEvent where
  | generate (context : RAGContext)
  | compare (products : List Product) (query : String)
deriving DecidableEq

/-- Orchestrator (`generateRecommendations`).  `genCall` and `cmpCall` are
the two external LLM oracles; the second component of the result is the
ordered list of external calls issued with their arguments. -/
def generateRecommendations (er : Except Unit Entities)
    (genCall : String → RAGContext → Except Unit String)
    (cmpCall : List Product → String → Except Unit String)
    (db : Catalog) (q : SearchQuery) :
    Except RagError RAGRecommendation × List CallEvent :=
  match retrieveRelevantProducts er db q with
  | [] => (.error (.noMatch noMatchMsg), [])
  | a :: rest =>
    match genCall q.text (ragContextOf q (a :: rest)) with
    | .error _ => (.error (.externalCall "generateRecommendations"),
                   [.generate (ragContextOf q (a :: rest))])
    | .ok analysis =>
      match cmpCall ((a :: rest).take 5) q.text with
      | .error _ => (.error (.externalCall "compareProducts"),
                     [.generate (ragContextOf q (a :: rest)),
                      .compare ((a :: rest).take 5) q.text])
      | .ok comparison =>
        (.ok { products := (a :: rest).take 5
               analysis := analysis
               reasoning := comparison
               alternatives := ((a :: rest).drop 5).take 5
               bestValue := selectBestValue a rest
               topRated := selectTopRated a rest },
         [.generate (ragContextOf q (a :: rest)),
          .compare ((a :: rest).take 5) q.text])

/-- Languages natively accepted by the underlying translation call
(`IndianLanguage`). -/
inductive IndianLanguage where
  | hindi | tamil | telugu | kannada | marathi | gujarati
deriving DecidableEq

/-- Languages accepted by the multilingual front-end
(`ExtendedIndianLanguage = IndianLanguage | "bengali" | "punjabi"`). -/
inductive ExtendedIndianLanguage where
  | hindi | tamil | telugu | kannada | marathi | gujarati | bengali | punjabi
deriving DecidableEq

/-- String code of a language, as used in the template-string cache key. -/
def langCode : ExtendedIndianLanguage → String
  | .hindi => "hindi"
  | .tamil => "tamil"
  | .telugu => "telugu"
  | .kannada => "kannada"
  | .marathi => "marathi"
  | .gujarati => "gujarati"
  | .bengali => "bengali"
  | .punjabi => "punjabi"

/-- Downcast `language as IndianLanguage` performed in the natively
supported branch.  The source reaches that cast only when the language is
not bengali/punjabi; those two are mapped to hindi, which is also exactly
the fallback language the other branch uses. -/
def asNative : ExtendedIndianLanguage → IndianLanguage
  | .hindi => .hindi
  | .tamil => .tamil
  | .telugu => .telugu
  | .kannada => .kannada
  | .marathi => .marathi
  | .gujarati => .gujarati
  | .bengali => .hindi
  | .punjabi => .hindi

/-- Cached translation record (`LocalizedContent`); the wall-clock
`translatedAt` timestamp is not modelled. -/
structure LocalizedContent where
  language : ExtendedIndianLanguage
  originalText : String
  translatedText : String
deriving DecidableEq

/-- Visible marker prepended when translation fell back to Hindi. -/
def fallbackMarker : String := "[Fallback via Hindi] "

/-- Translation cache (`Map<string, LocalizedContent>`), newest entry
first so that `set` overwrites on lookup. -/
abbrev TranslationCache := List (String × LocalizedContent)

/-- Multilingual front-end (`translateToIndianLanguage`).  `translateCall`
is the external `translateForIndianLanguage` oracle; the result pairs the
returned text with the updated cache, and an oracle failure is re-thrown
as `Except.error`. -/
def translateToIndianLanguage
    (translateCall : String → IndianLanguage → Except Unit String)
    (cache : TranslationCache) (text : String)
    (language : ExtendedIndianLanguage) (useCache : Bool) :
    Except Unit (String × TranslationCache) :=
  match useCache, List.lookup (text ++ ":" ++ langCode language) cache with
  | true, some entry => .ok (entry.translatedText, cache)
  | _, _ =>
    match (if language = .bengali ∨ language = .punjabi then
             (translateCall text .hindi).map (fun t => fallbackMarker ++ t)
           else
             translateCall text (asNative language)) with
    | .error e => .error e
    | .ok translatedText =>
      .ok (translatedText,
        (text ++ ":" ++ langCode language,
          { language := language
            originalText := text
            translatedText := translatedText }) :: cache)

/-- Product builder for the concrete catalogs used in closed witness and
counterexample statements. -/
def mkP (i : String) (nm : String) (pr rt : ℚ) : Product :=
  { id := i, name := nm.toList, price := pr, platform := "amazon",
    rating := rt, reviews := "" }

/-- Two products that tie on rating (and differ elsewhere). -/
def pa : Product := mkP "a" "Alpha ThinkPad" 100 4

/-- Second product of the rating tie; same rating as `pa`, higher price. -/
def pb : Product := mkP "b" "Beta Pavilion" 200 4

/-- Concrete product with a positive price, for the budget counterexample. -/
def p100 : Product := mkP "x" "Widget" 100 3

/-- Concrete one-category catalog holding the tied pair. -/
def exDb : Catalog := [("laptops".toList, [pa, pb])]

/-- Concrete query without budget or brand constraints. -/
def exQuery : SearchQuery := { text := "best laptop" }

/-- Concrete extracted intent whose product type names the catalog
category exactly. -/
def exEntities : Entities := { productType := some "laptops".toList }

/-- Extracted intent with every advisory field missing. -/
def emptyEntities : Entities := { }

/-- Concrete catalog for the budget counterexample. -/
def cexDb : Catalog := [("gadgets".toList, [p100])]

/-- Concrete query whose budget is present with `max = 0`. -/
def cexQuery : SearchQuery :=
  { text := "gadget", budget := some { min := 0, max := 0 } }

/-- Concrete extracted intent for the budget counterexample (no intent
budget). -/
def cexEntities : Entities := { productType := some "gadgets".toList }

/-- Concrete query with a positive maximum budget of 150. -/
def budgetQuery : SearchQuery :=
  { text := "best laptop", budget := some { min := 0, max := 150 } }

/-- Always-succeeding generation oracle used in concrete runs. -/
def okGen : String → RAGContext → Except Unit String :=
  fun _ _ => .ok "analysis"

/-- Always-succeeding comparison oracle used in concrete runs. -/
def okCmp : List Product → String → Except Unit String :=
  fun _ _ => .ok "comparison"

/-- Result record of the concrete successful pipeline run on `exDb`. -/
def exRec : RAGRecommendation :=
  { products := [pa, pb], analysis := "analysis", reasoning := "comparison",
    alternatives := [], bestValue := pa, topRated := pb }

/-- Call trace of the concrete successful pipeline run on `exDb`. -/
def exTrace : List CallEvent :=
  [.generate (ragContextOf exQuery [pa, pb]), .compare [pa, pb] "best laptop"]

theorem chStartsWith_iff (hay needle : List Char) :
    chStartsWith hay needle = true ↔ ∃ suf, hay = needle ++ suf := by
  induction needle generalizing hay with
  | nil => simp [chStartsWith]
  | cons a as ih =>
    cases hay with
    | nil => simp [chStartsWith]
    | cons b bs =>
      simp only [chStartsWith, Bool.and_eq_true, beq_iff_eq, ih]
      constructor
      · rintro ⟨rfl, suf, rfl⟩
        exact ⟨suf, rfl⟩
      · rintro ⟨suf, h⟩
        cases h
        exact ⟨rfl, suf, rfl⟩

theorem containsSub_iff (hay needle : List Char) :
    containsSub hay needle = true ↔ ∃ pre suf, hay = pre ++ needle ++ suf := by
  induction hay with
  | nil =>
    cases needle with
    | nil => simp [containsSub, List.isEmpty]
    | cons a as => simp [containsSub, List.isEmpty]
  | cons c t ih =>
    simp only [containsSub, Bool.or_eq_true, chStartsWith_iff, ih]
    constructor
    · rintro (⟨suf, h⟩ | ⟨pre, suf, h⟩)
      · exact ⟨[], suf, by simpa using h⟩
      · exact ⟨c :: pre, suf, by simp [h]⟩
    · rintro ⟨pre, suf, h⟩
      cases pre with
      | nil => exact Or.inl ⟨suf, by simpa using h⟩
      | cons x xs =>
        simp only [List.cons_append, List.cons.injEq] at h
        exact Or.inr ⟨xs, suf, by simp [h.2]⟩

theorem containsSub_nil_needle (hay : List Char) :
    containsSub hay [] = true := by
  cases hay with
  | nil => rfl
  | cons c t => simp [containsSub, chStartsWith]

theorem foldKeepMax_cons {α : Type} (k : α → ℚ) (a b : α) (t : List α) :
    foldKeepMax k a (b :: t) = foldKeepMax k (if k a > k b then a else b) t :=
  rfl

theorem foldKeepMin_cons {α : Type} (k : α → ℚ) (a b : α) (t : List α) :
    foldKeepMin k a (b :: t) = foldKeepMin k (if k a > k b then b else a) t :=
  rfl

theorem foldKeepMax_mem {α : Type} (k : α → ℚ) (a : α) (l : List α) :
    foldKeepMax k a l ∈ a :: l := by
  induction l generalizing a with
  | nil => simp [foldKeepMax]
  | cons b t ih =>
    rw [foldKeepMax_cons]
    by_cases h : k a > k b
    · rw [if_pos h]
      have h1 := ih a
      simp only [List.mem_cons] at h1 ⊢
      tauto
    · rw [if_neg h]
      have h1 := ih b
      simp only [List.mem_cons] at h1 ⊢
      tauto

theorem le_foldKeepMax {α : Type} (k : α → ℚ) (a : α) (l : List α) :
    ∀ p ∈ a :: l, k p ≤ k (foldKeepMax k a l) := by
  induction l generalizing a with
  | nil =>
    intro p hp
    simp only [List.mem_cons, List.not_mem_nil, or_false] at hp
    subst hp
    simp [foldKeepMax]
  | cons b t ih =>
    intro p hp
    rw [foldKeepMax_cons]
    simp only [List.mem_cons] at hp
    by_cases h : k a > k b
    · rw [if_pos h]
      rcases hp with h1 | h1 | h1
      · rw [h1]
        exact ih a a (List.mem_cons_self a t)
      · rw [h1]
        exact (le_of_lt h).trans (ih a a (List.mem_cons_self a t))
      · exact ih a p (List.mem_cons_of_mem a h1)
    · rw [if_neg h]
      have hab : k a ≤ k b := not_lt.mp h
      rcases hp with h1 | h1 | h1
      · rw [h1]
        exact hab.trans (ih b b (List.mem_cons_self b t))
      · rw [h1]
        exact ih b b (List.mem_cons_self b t)
      · exact ih b p (List.mem_cons_of_mem b h1)

theorem foldKeepMax_last {α : Type} (k : α → ℚ) (a : α) (l : List α) :
    ∃ pre suf, a :: l = pre ++ foldKeepMax k a l :: suf ∧
      ∀ p ∈ suf, k p < k (foldKeepMax k a l) := by
  induction l generalizing a with
  | nil => exact ⟨[], [], rfl, by simp⟩
  | cons b t ih =>
    rw [foldKeepMax_cons]
    by_cases h : k a > k b
    · rw [if_pos h]
      obtain ⟨pre, suf, heq, hsuf⟩ := ih a
      cases pre with
      | nil =>
        simp only [List.nil_append, List.cons.injEq] at heq
        refine ⟨[], b :: t, ?_, ?_⟩
        · rw [List.nil_append, ← heq.1]
        · intro p hp
          rw [← heq.1]
          rcases List.mem_cons.mp hp with h1 | h1
          · rw [h1]
            exact h
          · rw [heq.1]
            exact hsuf p (heq.2 ▸ h1)
      | cons x xs =>
        simp only [List.cons_append, List.cons.injEq] at heq
        refine ⟨a :: b :: xs, suf, ?_, hsuf⟩
        rw [List.cons_append, List.cons_append, ← heq.2]
    · rw [if_neg h]
      obtain ⟨pre, suf, heq, hsuf⟩ := ih b
      refine ⟨a :: pre, suf, ?_, hsuf⟩
      rw [List.cons_append, ← heq]

theorem foldKeepMin_mem {α : Type} (k : α → ℚ) (a : α) (l : List α) :
    foldKeepMin k a l ∈ a :: l := by
  induction l generalizing a with
  | nil => simp [foldKeepMin]
  | cons b t ih =>
    rw [foldKeepMin_cons]
    by_cases h : k a > k b
    · rw [if_pos h]
      have h1 := ih b
      simp only [List.mem_cons] at h1 ⊢
      tauto
    · rw [if_neg h]
      have h1 := ih a
      simp only [List.mem_cons] at h1 ⊢
      tauto

theorem foldKeepMin_le {α : Type} (k : α → ℚ) (a : α) (l : List α) :
    ∀ p ∈ a :: l, k (foldKeepMin k a l) ≤ k p := by
  induction l generalizing a with
  | nil =>
    intro p hp
    simp only [List.mem_cons, List.not_mem_nil, or_false] at hp
    subst hp
    simp [foldKeepMin]
  | cons b t ih =>
    intro p hp
    rw [foldKeepMin_cons]
    simp only [List.mem_cons] at hp
    by_cases h : k a > k b
    · rw [if_pos h]
      rcases hp with h1 | h1 | h1
      · rw [h1]
        exact (ih b b (List.mem_cons_self b t)).trans (le_of_lt h)
      · rw [h1]
        exact ih b b (List.mem_cons_self b t)
      · exact ih b p (List.mem_cons_of_mem b h1)
    · rw [if_neg h]
      have hab : k a ≤ k b := not_lt.mp h
      rcases hp with h1 | h1 | h1
      · rw [h1]
        exact ih a a (List.mem_cons_self a t)
      · rw [h1]
        exact (ih a a (List.mem_cons_self a t)).trans hab
      · exact ih a p (List.mem_cons_of_mem a h1)

theorem foldKeepMin_first {α : Type} (k : α → ℚ) (a : α) (l : List α) :
    ∃ pre suf, a :: l = pre ++ foldKeepMin k a l :: suf ∧
      ∀ p ∈ pre, k (foldKeepMin k a l) < k p := by
  induction l generalizing a with
  | nil => exact ⟨[], [], rfl, by simp⟩
  | cons b t ih =>
    rw [foldKeepMin_cons]
    by_cases h : k a > k b
    · rw [if_pos h]
      obtain ⟨pre, suf, heq, hpre⟩ := ih b
      refine ⟨a :: pre, suf, by rw [List.cons_append, ← heq], ?_⟩
      intro p hp
      rcases List.mem_cons.mp hp with h1 | h1
      · rw [h1]
        exact lt_of_le_of_lt
          (foldKeepMin_le k b t b (List.mem_cons_self b t)) h
      · exact hpre p h1
    · rw [if_neg h]
      have hab : k a ≤ k b := not_lt.mp h
      obtain ⟨pre, suf, heq, hpre⟩ := ih a
      cases pre with
      | nil =>
        simp only [List.nil_append, List.cons.injEq] at heq
        refine ⟨[], b :: t, ?_, by simp⟩
        rw [List.nil_append, ← heq.1]
      | cons x xs =>
        simp only [List.cons_append, List.cons.injEq] at heq
        have hxa : k (foldKeepMin k a t) < k a := by
          have h3 := hpre x (List.mem_cons_self x xs)
          rw [← heq.1] at h3
          exact h3
        refine ⟨a :: b :: xs, suf, ?_, ?_⟩
        · rw [List.cons_append, List.cons_append, ← heq.2]
        intro p hp
        rcases List.mem_cons.mp hp with h1 | h1
        · rw [h1]
          exact hxa
        rcases List.mem_cons.mp h1 with h2 | h2
        · rw [h2]
          exact lt_of_lt_of_le hxa hab
        · exact hpre p (List.mem_cons_of_mem x h2)

theorem mem_insertByRating {x p : Product} :
    ∀ {l : List Product}, x ∈ insertByRating p l ↔ x = p ∨ x ∈ l := by
  intro l
  induction l with
  | nil => simp [insertByRating]
  | cons q t ih =>
    simp only [insertByRating]
    split
    · simp [List.mem_cons]
    · simp only [List.mem_cons, ih]
      tauto

theorem mem_sortByRatingDesc {x : Product} :
    ∀ {l : List Product}, x ∈ sortByRatingDesc l ↔ x ∈ l := by
  intro l
  induction l with
  | nil => simp [sortByRatingDesc]
  | cons p t ih => simp [sortByRatingDesc, mem_insertByRating, ih]

theorem budgetFilter_subset {p : Product} {q : SearchQuery} {e : Entities}
    {ps : List Product} (h : p ∈ budgetFilter q e ps) : p ∈ ps := by
  unfold budgetFilter at h
  split at h
  · split at h
    · exact List.mem_of_mem_filter h
    · exact h
  · exact h

theorem brandFilter_subset {p : Product} {q : SearchQuery}
    {ps : List Product} (h : p ∈ brandFilter q ps) : p ∈ ps := by
  unfold brandFilter at h
  split at h
  · exact h
  · split at h
    · exact List.mem_of_mem_filter h
    · exact h

theorem mem_relevantAggregate {p : Product} {db : Catalog}
    {q : SearchQuery} {e : Entities} (h : p ∈ relevantAggregate db q e) :
    ∃ cp, cp ∈ db ∧ categoryMatches (ptOf e) cp.1 = true ∧
      p ∈ applyFilters q e cp.2 := by
  unfold relevantAggregate at h
  obtain ⟨cp, hcp, hp⟩ := List.mem_flatMap.mp h
  obtain ⟨hmem, hmatch⟩ := List.mem_filter.mp hcp
  exact ⟨cp, hmem, hmatch, hp⟩

theorem mem_retrieve {p : Product} {er : Except Unit Entities}
    {db : Catalog} {q : SearchQuery}
    (h : p ∈ retrieveRelevantProducts er db q) :
    ∃ e, er = .ok e ∧ p ∈ relevantAggregate db q e := by
  cases er with
  | error u => simp [retrieveRelevantProducts] at h
  | ok e =>
    refine ⟨e, rfl, ?_⟩
    exact mem_sortByRatingDesc.mp (List.mem_of_mem_take h)

theorem retrieve_length_le (er : Except Unit Entities) (db : Catalog)
    (q : SearchQuery) : (retrieveRelevantProducts er db q).length ≤ 10 := by
  cases er with
  | error u => simp [retrieveRelevantProducts]
  | ok e => exact List.length_take_le 10 _

theorem resolvedMaxBudget_of_none {q : SearchQuery} {e : Entities}
    (hq : q.budget = none) (he : e.budget = none) :
    resolvedMaxBudget q e = 0 := by
  simp [resolvedMaxBudget, hq, he, jsNumOr]

theorem budgetFilter_price_le {p : Product} {q : SearchQuery} {e : Entities}
    {ps : List Product} (hB : 0 < resolvedMaxBudget q e)
    (h : p ∈ budgetFilter q e ps) : p.price ≤ resolvedMaxBudget q e := by
  unfold budgetFilter at h
  by_cases hc : (q.budget.isSome || e.budget.isSome) = true
  · rw [if_pos hc, if_pos hB] at h
    have h2 := (List.mem_filter.mp h).2
    exact of_decide_eq_true h2
  · exfalso
    have hq : q.budget = none := by
      cases hqb : q.budget with
      | none => rfl
      | some b => rw [hqb] at hc; simp at hc
    have he : e.budget = none := by
      cases heb : e.budget with
      | none => rfl
      | some b => rw [heb] at hc; simp at hc
    rw [resolvedMaxBudget_of_none hq he] at hB
    exact lt_irrefl 0 hB

theorem jsEffRating_ne_zero (p : Product) : jsEffRating p ≠ 0 := by
  unfold jsEffRating
  split
  · exact one_ne_zero
  · next h => exact h

theorem specRatio_eq {p : Product} (hp : 0 ≤ p.rating) :
    p.price / (if 0 < p.rating then p.rating else 1) = valueScore p := by
  unfold valueScore jsEffRating
  rcases eq_or_lt_of_le hp with h0 | h0
  · rw [← h0]
    simp
  · rw [if_pos h0, if_neg (ne_of_gt h0)]

theorem take5_take5_eq {l : List Product} (h : l.length ≤ 10) :
    l.take 5 ++ (l.drop 5).take 5 = l := by
  rw [← List.take_add]
  exact List.take_of_length_le h

/-- C1 counterexample: the retrieval of `exDb` produces the candidate list
`[pa, pb]`, whose two products tie on the maximum rating, yet the
selector's `topRated` reduce returns `pb` — the later of the two tied
products — while the claim requires the first-occurring one, `pa`. -/
theorem c1_counterexample :
    retrieveRelevantProducts (.ok exEntities) exDb exQuery = [pa, pb] ∧
    pa.rating = pb.rating ∧
    selectTopRated pa [pb] = pb ∧
    pb ≠ pa := by decide

/-- C1 (amended): for every non-empty candidate list produced by
retrieval, the selector's `topRated` is a product whose rating is greater
than or equal to the rating of every product in the list, and when several
products share the maximum rating, `topRated` is the last-occurring
(rightmost) such product in the list. -/
theorem c1_topRated_lastTie (er : Except Unit Entities) (db : Catalog)
    (q : SearchQuery) (a : Product) (l : List Product)
    (_hret : retrieveRelevantProducts er db q = a :: l) :
    (∀ p ∈ a :: l, p.rating ≤ (selectTopRated a l).rating) ∧
    ∃ pre suf, a :: l = pre ++ selectTopRated a l :: suf ∧
      ∀ p ∈ suf, p.rating < (selectTopRated a l).rating :=
  ⟨le_foldKeepMax Product.rating a l, foldKeepMax_last Product.rating a l⟩

/-- C1 witness: the amended theorem instantiated on the concrete retrieval
over `exDb`. -/
theorem c1_witness :
    retrieveRelevantProducts (.ok exEntities) exDb exQuery = pa :: [pb] ∧
    ((∀ p ∈ pa :: [pb], p.rating ≤ (selectTopRated pa [pb]).rating) ∧
      ∃ pre suf, pa :: [pb] = pre ++ selectTopRated pa [pb] :: suf ∧
        ∀ p ∈ suf, p.rating < (selectTopRated pa [pb]).rating) :=
  ⟨by decide,
   c1_topRated_lastTie (.ok exEntities) exDb exQuery pa [pb] (by decide)⟩

/-- C2: for every non-empty candidate list produced by retrieval whose
ratings are non-negative (the data-model invariant `rating ∈ [0,5]`), the
selector's `bestValue` is a member of the list minimizing
`price / effectiveRating`, where `effectiveRating = rating if rating > 0
else 1`; the division guard `rating || 1` is never zero, and when several
products attain the minimum ratio, `bestValue` is the first-occurring such
product. -/
theorem c2_bestValue (er : Except Unit Entities) (db : Catalog)
    (q : SearchQuery) (a : Product) (l : List Product)
    (_hret : retrieveRelevantProducts er db q = a :: l)
    (hnn : ∀ p ∈ a :: l, 0 ≤ p.rating) :
    selectBestValue a l ∈ a :: l ∧
    (∀ p ∈ a :: l, jsEffRating p ≠ 0) ∧
    (∀ p ∈ a :: l,
      (selectBestValue a l).price /
          (if 0 < (selectBestValue a l).rating
            then (selectBestValue a l).rating else 1) ≤
        p.price / (if 0 < p.rating then p.rating else 1)) ∧
    ∃ pre suf, a :: l = pre ++ selectBestValue a l :: suf ∧
      ∀ p ∈ pre,
        (selectBestValue a l).price /
            (if 0 < (selectBestValue a l).rating
              then (selectBestValue a l).rating else 1) <
          p.price / (if 0 < p.rating then p.rating else 1) := by
  have hmem : selectBestValue a l ∈ a :: l := foldKeepMin_mem valueScore a l
  have hbb : 0 ≤ (selectBestValue a l).rating := hnn _ hmem
  refine ⟨hmem, fun p _ => jsEffRating_ne_zero p, ?_, ?_⟩
  · intro p hp
    rw [specRatio_eq hbb, specRatio_eq (hnn p hp)]
    exact foldKeepMin_le valueScore a l p hp
  · obtain ⟨pre, suf, heq, hpre⟩ := foldKeepMin_first valueScore a l
    refine ⟨pre, suf, heq, ?_⟩
    intro p hp
    have hpmem : p ∈ a :: l := by
      rw [heq]
      exact List.mem_append_left _ hp
    rw [specRatio_eq hbb, specRatio_eq (hnn p hpmem)]
    exact hpre p hp

/-- C2 witness: the theorem instantiated on the concrete retrieval over
`exDb`, whose ratings are non-negative. -/
theorem c2_witness :
    retrieveRelevantProducts (.ok exEntities) exDb exQuery = pa :: [pb] ∧
    (∀ p ∈ pa :: [pb], 0 ≤ p.rating) ∧
    (selectBestValue pa [pb] ∈ pa :: [pb] ∧
     (∀ p ∈ pa :: [pb], jsEffRating p ≠ 0) ∧
     (∀ p ∈ pa :: [pb],
       (selectBestValue pa [pb]).price /
           (if 0 < (selectBestValue pa [pb]).rating
             then (selectBestValue pa [pb]).rating else 1) ≤
         p.price / (if 0 < p.rating then p.rating else 1)) ∧
     ∃ pre suf, pa :: [pb] = pre ++ selectBestValue pa [pb] :: suf ∧
       ∀ p ∈ pre,
         (selectBestValue pa [pb]).price /
             (if 0 < (selectBestValue pa [pb]).rating
               then (selectBestValue pa [pb]).rating else 1) <
           p.price / (if 0 < p.rating then p.rating else 1)) :=
  ⟨by decide, by decide,
   c2_bestValue (.ok exEntities) exDb exQuery pa [pb] (by decide) (by decide)⟩

/-- C3 counterexample: with the extraction call failing, retrieval over
the non-empty catalog `exDb` returns the empty list, whereas retrieval
with an empty intent over the same catalog returns `[pa, pb]` — so a
failed extraction is not treated as an empty intent and retrieval does not
run over the catalog. -/
theorem c3_counterexample :
    retrieveRelevantProducts (.error ()) exDb exQuery = [] ∧
    retrieveRelevantProducts (.ok emptyEntities) exDb exQuery = [pa, pb] ∧
    ([] : List Product) ≠ [pa, pb] := by decide

/-- C3 (amended): when the intent-extraction call fails or returns
unparseable data, the parse error is not propagated upward from the
retrieval stage — the Retriever absorbs it and returns an empty candidate
list (skipping retrieval over the catalog), after which the pipeline fails
with the no-match condition rather than the parse error. -/
theorem c3_extractionFailureAbsorbed (db : Catalog) (q : SearchQuery)
    (genCall : String → RAGContext → Except Unit String)
    (cmpCall : List Product → String → Except Unit String) :
    retrieveRelevantProducts (.error ()) db q = [] ∧
    generateRecommendations (.error ()) genCall cmpCall db q
      = (.error (.noMatch noMatchMsg), []) :=
  ⟨rfl, rfl⟩

/-- C4: whenever retrieval produces zero candidates,
`generateRecommendations` fails with the specific no-match error carrying
the user-facing message (not a generic external-call error), and neither
the generation call nor the comparison call is issued. -/
theorem c4_noMatch (er : Except Unit Entities)
    (genCall : String → RAGContext → Except Unit String)
    (cmpCall : List Product → String → Except Unit String)
    (db : Catalog) (q : SearchQuery)
    (hempty : retrieveRelevantProducts er db q = []) :
    generateRecommendations er genCall cmpCall db q
      = (.error (.noMatch noMatchMsg), []) := by
  unfold generateRecommendations
  rw [hempty]

/-- C4 witness: the theorem instantiated on an empty catalog, where
retrieval concretely returns zero candidates. -/
theorem c4_witness :
    retrieveRelevantProducts (.ok exEntities) [] exQuery = [] ∧
    generateRecommendations (.ok exEntities) okGen okCmp [] exQuery
      = (.error (.noMatch noMatchMsg), []) :=
  ⟨by decide, c4_noMatch (.ok exEntities) okGen okCmp [] exQuery (by decide)⟩

/-- C5 counterexample: the query's budget is present with `max = 0`, so by
the claim the effective budget B = 0 resolves and every retrieved product
must have price ≤ 0; but the code treats a zero (falsy) `query.budget.max`
as absent, performs no filtering, and returns the price-100 product. -/
theorem c5_counterexample :
    cexQuery.budget = some { min := 0, max := 0 } ∧
    cexEntities.budget = none ∧
    retrieveRelevantProducts (.ok cexEntities) cexDb cexQuery = [p100] ∧
    ¬ (p100.price ≤ (0 : ℚ)) := by decide

/-- C5 (amended): the effective maximum budget is resolved as
`query.budget.max` if present and non-zero, otherwise `intent.budget.max`
if present and non-zero, otherwise 0; when the resolved value is positive
every retrieved product has price at most that value (so no product above
it ever appears), and otherwise the budget filter leaves the product list
unchanged. -/
theorem c5_budget (db : Catalog) (q : SearchQuery) (e : Entities)
    (ps : List Product) :
    (0 < resolvedMaxBudget q e →
      ∀ p ∈ retrieveRelevantProducts (.ok e) db q,
        p.price ≤ resolvedMaxBudget q e) ∧
    (¬ 0 < resolvedMaxBudget q e → budgetFilter q e ps = ps) := by
  constructor
  · intro hB p hp
    obtain ⟨e2, he2, hagg⟩ := mem_retrieve hp
    have he : e2 = e := by
      injection he2 with h
      exact h.symm
    subst he
    obtain ⟨cp, hcp, hm, hf⟩ := mem_relevantAggregate hagg
    have hf2 : p ∈ brandFilter q (budgetFilter q e2 cp.2) := hf
    exact budgetFilter_price_le hB (brandFilter_subset hf2)
  · intro hB
    unfold budgetFilter
    by_cases hc : (q.budget.isSome || e.budget.isSome) = true
    · rw [if_pos hc, if_neg hB]
    · rw [if_neg hc]

/-- C5 witness: the filtering half on a query with budget `max = 150`
(only `pa` at price 100 survives), and the no-filtering half on the
present-but-zero budget query. -/
theorem c5_witness :
    (0 < resolvedMaxBudget budgetQuery exEntities ∧
      ∀ p ∈ retrieveRelevantProducts (.ok exEntities) exDb budgetQuery,
        p.price ≤ resolvedMaxBudget budgetQuery exEntities) ∧
    (¬ 0 < resolvedMaxBudget cexQuery emptyEntities ∧
      budgetFilter cexQuery emptyEntities [p100] = [p100]) :=
  ⟨⟨by decide, (c5_budget exDb budgetQuery exEntities []).1 (by decide)⟩,
   ⟨by decide, (c5_budget exDb cexQuery emptyEntities [p100]).2 (by decide)⟩⟩

/-- C6: a catalog category's products are considered for retrieval exactly
when the lower-cased extracted product type is a substring of the
lower-cased category name or the lower-cased category name is a substring
of the lower-cased product type (both directions); every product of the
retrieval result comes from such a matching category. -/
theorem c6_categoryMatch (db : Catalog) (q : SearchQuery) (e : Entities)
    (cat : List Char) (ps : List Product) :
    ((cat, ps) ∈ db.filter (fun cp => categoryMatches (ptOf e) cp.1) ↔
      ((cat, ps) ∈ db ∧
        ((∃ x y, lowerStr cat = x ++ lowerStr (ptOf e) ++ y) ∨
         (∃ x y, lowerStr (ptOf e) = x ++ lowerStr cat ++ y)))) ∧
    (∀ p ∈ retrieveRelevantProducts (.ok e) db q,
      ∃ cp, cp ∈ db ∧ categoryMatches (ptOf e) cp.1 = true ∧ p ∈ cp.2) := by
  constructor
  · rw [List.mem_filter]
    constructor
    · rintro ⟨hmem, hmatch⟩
      refine ⟨hmem, ?_⟩
      simp only [categoryMatches, Bool.or_eq_true, containsSub_iff] at hmatch
      exact hmatch
    · rintro ⟨hmem, hsub⟩
      refine ⟨hmem, ?_⟩
      simp only [categoryMatches, Bool.or_eq_true, containsSub_iff]
      exact hsub
  · intro p hp
    obtain ⟨e2, he2, hagg⟩ := mem_retrieve hp
    have he : e2 = e := by
      injection he2 with h
      exact h.symm
    subst he
    obtain ⟨cp, hcp, hm, hf⟩ := mem_relevantAggregate hagg
    have hf2 : p ∈ brandFilter q (budgetFilter q e2 cp.2) := hf
    exact ⟨cp, hcp, hm, budgetFilter_subset (brandFilter_subset hf2)⟩

/-- C6 witness: both directions exercised on the concrete catalog whose
single category name equals the extracted product type. -/
theorem c6_witness :
    (("laptops".toList, [pa, pb]) ∈
        exDb.filter (fun cp => categoryMatches (ptOf exEntities) cp.1)) ∧
    (pa ∈ retrieveRelevantProducts (.ok exEntities) exDb exQuery ∧
      ∃ cp, cp ∈ exDb ∧ categoryMatches (ptOf exEntities) cp.1 = true ∧
        pa ∈ cp.2) :=
  ⟨(c6_categoryMatch exDb exQuery exEntities "laptops".toList [pa, pb]).1.mpr
    ⟨by decide, Or.inl ⟨[], [], by decide⟩⟩,
   by decide,
   (c6_categoryMatch exDb exQuery exEntities "laptops".toList [pa, pb]).2 pa
    (by decide)⟩

/-- C7: retrieval never returns more than 10 products; every comparison
call is issued with exactly the top-5 subset of the retrieved candidate
list (hence with at most 5 products), and every generation call is issued
with the full retrieved candidate list (the up-to-10 set) as its product
context. -/
theorem c7_truncation (er : Except Unit Entities)
    (genCall : String → RAGContext → Except Unit String)
    (cmpCall : List Product → String → Except Unit String)
    (db : Catalog) (q : SearchQuery) :
    (retrieveRelevantProducts er db q).length ≤ 10 ∧
    (∀ ps t, CallEvent.compare ps t ∈
        (generateRecommendations er genCall cmpCall db q).2 →
      ps = (retrieveRelevantProducts er db q).take 5 ∧ ps.length ≤ 5) ∧
    (∀ ctx, CallEvent.generate ctx ∈
        (generateRecommendations er genCall cmpCall db q).2 →
      ctx.productData = some (retrieveRelevantProducts er db q)) := by
  refine ⟨retrieve_length_le er db q, ?_, ?_⟩
  · intro ps t hmem
    unfold generateRecommendations at hmem
    split at hmem
    · simp at hmem
    · next a rest heq =>
      split at hmem
      · simp at hmem
      · next analysis hgen =>
        split at hmem
        · next u hcmp =>
          simp only [List.mem_cons, List.not_mem_nil, or_false] at hmem
          rcases hmem with h3 | h3
          · exact absurd h3 (by simp)
          · injection h3 with h4 h5
            constructor
            · rw [heq, h4]
            · rw [h4]
              exact List.length_take_le 5 _
        · next comparison hcmp =>
          simp only [List.mem_cons, List.not_mem_nil, or_false] at hmem
          rcases hmem with h3 | h3
          · exact absurd h3 (by simp)
          · injection h3 with h4 h5
            constructor
            · rw [heq, h4]
            · rw [h4]
              exact List.length_take_le 5 _
  · intro ctx hmem
    unfold generateRecommendations at hmem
    split at hmem
    · simp at hmem
    · next a rest heq =>
      rw [heq]
      split at hmem
      · next u hgen =>
        simp only [List.mem_singleton] at hmem
        injection hmem with h4
        rw [h4]
        rfl
      · next analysis hgen =>
        split at hmem
        · next u hcmp =>
          simp only [List.mem_cons, List.not_mem_nil, or_false] at hmem
          rcases hmem with h3 | h3
          · injection h3 with h4
            rw [h4]
            rfl
          · exact absurd h3 (by simp)
        · next comparison hcmp =>
          simp only [List.mem_cons, List.not_mem_nil, or_false] at hmem
          rcases hmem with h3 | h3
          · injection h3 with h4
            rw [h4]
            rfl
          · exact absurd h3 (by simp)

/-- C7 witness: on the concrete successful run over `exDb`, the issued
comparison call carries exactly the top-5 prefix of the retrieved
candidates (here both of them, at most 5) and the issued generation call
carries the full retrieved list. -/
theorem c7_witness :
    (CallEvent.compare [pa, pb] "best laptop" ∈
        (generateRecommendations (.ok exEntities) okGen okCmp exDb exQuery).2 ∧
      ([pa, pb] =
          (retrieveRelevantProducts (.ok exEntities) exDb exQuery).take 5 ∧
        ([pa, pb] : List Product).length ≤ 5)) ∧
    (CallEvent.generate (ragContextOf exQuery [pa, pb]) ∈
        (generateRecommendations (.ok exEntities) okGen okCmp exDb exQuery).2 ∧
      (ragContextOf exQuery [pa, pb]).productData =
        some (retrieveRelevantProducts (.ok exEntities) exDb exQuery)) :=
  ⟨⟨by with_unfolding_all decide,
    (c7_truncation (.ok exEntities) okGen okCmp exDb exQuery).2.1 [pa, pb]
      "best laptop" (by with_unfolding_all decide)⟩,
   ⟨by with_unfolding_all decide,
    (c7_truncation (.ok exEntities) okGen okCmp exDb exQuery).2.2
      (ragContextOf exQuery [pa, pb]) (by with_unfolding_all decide)⟩⟩

/-- C8: on every successful run, the returned `bestValue` and `topRated`
are each members of `products ++ alternatives`, the full relevant-products
candidate set — they are computed over the full set, not just the top-5
subset. -/
theorem c8_selectionsFromFullSet (er : Except Unit Entities)
    (genCall : String → RAGContext → Except Unit String)
    (cmpCall : List Product → String → Except Unit String)
    (db : Catalog) (q : SearchQuery) (rec : RAGRecommendation)
    (tr : List CallEvent)
    (hok : generateRecommendations er genCall cmpCall db q = (.ok rec, tr)) :
    rec.bestValue ∈ rec.products ++ rec.alternatives ∧
    rec.topRated ∈ rec.products ++ rec.alternatives := by
  unfold generateRecommendations at hok
  split at hok
  · simp at hok
  · next a rest heq =>
    split at hok
    · simp at hok
    · next analysis hgen =>
      split at hok
      · simp at hok
      · next comparison hcmp =>
        simp only [Prod.mk.injEq, Except.ok.injEq] at hok
        obtain ⟨hrec, htr2⟩ := hok
        have hlen : (a :: rest).length ≤ 10 := by
          rw [← heq]
          exact retrieve_length_le er db q
        subst hrec
        constructor
        · show selectBestValue a rest ∈
            (a :: rest).take 5 ++ ((a :: rest).drop 5).take 5
          rw [take5_take5_eq hlen]
          exact foldKeepMin_mem valueScore a rest
        · show selectTopRated a rest ∈
            (a :: rest).take 5 ++ ((a :: rest).drop 5).take 5
          rw [take5_take5_eq hlen]
          exact foldKeepMax_mem Product.rating a rest

/-- C8 witness: the theorem instantiated on the concrete successful run
over `exDb`, whose result record is `exRec`. -/
theorem c8_witness :
    generateRecommendations (.ok exEntities) okGen okCmp exDb exQuery
        = (.ok exRec, exTrace) ∧
    (exRec.bestValue ∈ exRec.products ++ exRec.alternatives ∧
      exRec.topRated ∈ exRec.products ++ exRec.alternatives) :=
  ⟨by with_unfolding_all decide,
   c8_selectionsFromFullSet (.ok exEntities) okGen okCmp exDb exQuery exRec
    exTrace (by with_unfolding_all decide)⟩

/-- C9: a translation request for a language outside the natively
supported subset (bengali or punjabi) is performed via the Hindi fallback
path and its result is prefixed with the visible fallback marker; for a
natively supported language the oracle's translation is returned verbatim,
with no marker prepended. -/
theorem c9_fallbackMarker
    (translateCall : String → IndianLanguage → Except Unit String)
    (cache : TranslationCache) (text : String)
    (language : ExtendedIndianLanguage) (tr : String)
    (hmiss : List.lookup (text ++ ":" ++ langCode language) cache = none)
    (hcall : translateCall text (asNative language) = .ok tr) :
    asNative .bengali = .hindi ∧ asNative .punjabi = .hindi ∧
    (translateToIndianLanguage translateCall cache text language true).map
        Prod.fst
      = .ok (if language = .bengali ∨ language = .punjabi
             then fallbackMarker ++ tr else tr) := by
  refine ⟨rfl, rfl, ?_⟩
  unfold translateToIndianLanguage
  rw [hmiss]
  cases language <;> simp only [asNative] at hcall <;>
    simp [asNative, hcall, Except.map]

/-- C9 witness: the theorem instantiated at bengali on an empty cache with
a constant translation oracle. -/
theorem c9_witness :
    List.lookup ("hello" ++ ":" ++ langCode .bengali)
        ([] : TranslationCache) = none ∧
    (fun (_ : String) (_ : IndianLanguage) =>
        (Except.ok "text" : Except Unit String)) "hello"
        (asNative .bengali) = .ok "text" ∧
    (asNative .bengali = .hindi ∧ asNative .punjabi = .hindi ∧
      (translateToIndianLanguage
          (fun _ _ => (Except.ok "text" : Except Unit String)) [] "hello"
          .bengali true).map Prod.fst
        = .ok (if ExtendedIndianLanguage.bengali = .bengali ∨
                  ExtendedIndianLanguage.bengali = .punjabi
               then fallbackMarker ++ "text" else "text")) :=
  ⟨rfl, rfl,
   c9_fallbackMarker (fun _ _ => (Except.ok "text" : Except Unit String))
    [] "hello" .bengali "text" rfl rfl⟩

/-- C10: when the extracted product type is the empty string, the
bidirectional substring test accepts every indexed category, so the
retrieval aggregation draws from all categories of the catalog, subject
only to the budget and brand filters. -/
theorem c10_emptyTypeMatchesAll (db : Catalog) (q : SearchQuery)
    (e : Entities) (hpt : ptOf e = []) :
    db.filter (fun cp => categoryMatches (ptOf e) cp.1) = db ∧
    relevantAggregate db q e =
      db.flatMap (fun cp => applyFilters q e cp.2) := by
  have hall : ∀ cp : List Char × List Product,
      categoryMatches (ptOf e) cp.1 = true := by
    intro cp
    unfold categoryMatches
    rw [hpt]
    simp [lowerStr, containsSub_nil_needle]
  have hfe : db.filter (fun cp => categoryMatches (ptOf e) cp.1) = db :=
    List.filter_eq_self.mpr (fun a _ => hall a)
  refine ⟨hfe, ?_⟩
  unfold relevantAggregate
  rw [hfe]

/-- C10 witness: the theorem instantiated on the intent with no product
type over the concrete catalog. -/
theorem c10_witness :
    ptOf emptyEntities = [] ∧
    (exDb.filter (fun cp => categoryMatches (ptOf emptyEntities) cp.1)
        = exDb ∧
      relevantAggregate exDb exQuery emptyEntities =
        exDb.flatMap (fun cp => applyFilters exQuery emptyEntities cp.2)) :=
  ⟨rfl, c10_emptyTypeMatchesAll exDb exQuery emptyEntities rfl⟩

end Shop
